import Mathlib

set_option maxRecDepth 4000

/-!
Shallow embedding of the inline AI-completion subsystem of the JSVim editor
(src/src/editor.js, src/src/ai-service.js and the AIService class embedded in
src/src/command-parser.js), together with proofs of the specification claims.

Strings are modelled as `List Char` internally (one `Char` per UTF-16 code
unit of the JavaScript string; every concrete string in this development is
ASCII, where the two notions agree), with `String` wrappers at the interface.
JavaScript regular-expression replacements are modelled by dedicated scanner
functions, one per regex, each following the deterministic behaviour of the
corresponding pattern (backtracking is spelled out explicitly at the few
places where it matters).
-/

namespace JSVim

/-- JavaScript `\s` (whitespace) for the character sets used by the sources.
All concrete inputs in this development are ASCII. -/
def isJsWs (c : Char) : Bool :=
  c = ' ' || c = '\t' || c = '\n' || c = '\r' || c = '\x0b' || c = '\x0c' || c.toNat = 0xa0

/-- ASCII lower-casing, as used by `toLowerCase` on the ASCII strings involved. -/
def lowerC (c : Char) : Char := c.toLower

def lowerL (s : List Char) : List Char := s.map lowerC

/-- JavaScript `String.prototype.trim`: drop whitespace from both ends. -/
def jsTrimL (s : List Char) : List Char :=
  ((s.dropWhile isJsWs).reverse.dropWhile isJsWs).reverse

/-- Literal prefix match, case insensitive: on success return the rest. -/
def ciDrop (pat s : List Char) : Option (List Char) :=
  if (lowerL pat).isPrefixOf (lowerL s) then some (s.drop pat.length) else none

/-- Literal prefix match (case sensitive): on success return the rest. -/
def litDrop (pat s : List Char) : Option (List Char) :=
  if pat.isPrefixOf s then some (s.drop pat.length) else none

/-- First index at which `pat` occurs as a sublist of `s`, if any. -/
def findSubIdx (pat : List Char) : List Char → Option Nat
  | [] => if pat = [] then some 0 else none
  | c :: rest =>
    if pat.isPrefixOf (c :: rest) then some 0
    else (findSubIdx pat rest).map (· + 1)

/-- Does `pat` occur inside `s`? (JavaScript `String.prototype.includes`.) -/
def hasSub (pat s : List Char) : Bool := (findSubIdx pat s).isSome

/--
A matcher describes one regular expression: given the current suffix of the
scanned string, if a match starts exactly here it returns the replacement
text to emit together with the rest of the string after the match.  Every
matcher in this development consumes at least one character on success.
-/
abbrev Matcher := List Char → Option (List Char × List Char)

/-- Global replace (JavaScript `replace` with the `g` flag): scan left to
right, emit replacements, restart after each match.  `fuel` bounds the
recursion; `gsubAll` supplies enough fuel for the whole string. -/
def gsub (m : Matcher) : Nat → List Char → List Char
  | 0, s => s
  | _ + 1, [] => []
  | fuel + 1, c :: rest =>
    match m (c :: rest) with
    | some (rep, rest') => rep ++ gsub m fuel rest'
    | none => c :: gsub m fuel rest

def gsubAll (m : Matcher) (s : List Char) : List Char := gsub m (s.length + 1) s

/-- Non-global replace: first match only. -/
def subFirst (m : Matcher) : Nat → List Char → List Char
  | 0, s => s
  | _ + 1, [] => []
  | fuel + 1, c :: rest =>
    match m (c :: rest) with
    | some (rep, rest') => rep ++ rest'
    | none => c :: subFirst m fuel rest

def subFirstAll (m : Matcher) (s : List Char) : List Char := subFirst m (s.length + 1) s

/-- Literal-string matcher with a fixed replacement. -/
def mLit (pat rep : List Char) : Matcher := fun s =>
  (litDrop pat s).map (fun rest => (rep, rest))

/-- Replace every occurrence of the literal `pat` by `rep`. -/
def replaceAllL (pat rep s : List Char) : List Char :=
  if pat = [] then s else gsubAll (mLit pat rep) s

/-- Replace the first occurrence of the literal `pat` by `rep`
(JavaScript `replace` with a string pattern). -/
def replaceFirstL (pat rep s : List Char) : List Char :=
  if pat = [] then s else subFirstAll (mLit pat rep) s

/-- Split on runs of whitespace, JavaScript `split(/\s+/)` semantics:
a leading run yields a leading empty element, a trailing run a trailing
empty element, and the empty string yields `[[]]`. -/
def jsSplitWs (s : List Char) : List (List Char) :=
  match s with
  | [] => [[]]
  | c :: _ =>
    if isJsWs c then [] :: splitCore (s.dropWhile isJsWs) s.length
    else splitCore s s.length
where
  splitCore : List Char → Nat → List (List Char)
    | _, 0 => [[]]
    | s, fuel + 1 =>
      let word := s.takeWhile (fun c => !(isJsWs c))
      let rest := s.dropWhile (fun c => !(isJsWs c))
      match rest with
      | [] => [word]
      | _ :: _ =>
        let rest' := rest.dropWhile isJsWs
        match rest' with
        | [] => [word, []]
        | _ :: _ => word :: splitCore rest' fuel

/-- JavaScript `split("\n")` (literal separator, no special cases). -/
def splitNl (s : List Char) : List (List Char) :=
  go s (s.length + 1)
where
  go : List Char → Nat → List (List Char)
    | s, 0 => [s]
    | s, fuel + 1 =>
      match findSubIdx ['\n'] s with
      | none => [s]
      | some i => s.take i :: go (s.drop (i + 1)) fuel

/-- Join with newline separators (`Array.prototype.join("\n")`). -/
def joinNl : List (List Char) → List Char
  | [] => []
  | [a] => a
  | a :: b :: t => a ++ '\n' :: joinNl (b :: t)

/-! ### The cache-key digest (`AIService.getCacheKey`)

`hash = ((hash << 5) - hash) + charCode; hash = hash & hash` over the UTF-16
code units, i.e. `h := ToInt32(ToInt32(h * 32) - h + c)`, rendered with
`Number.prototype.toString` (signed decimal). -/

/-- Two's-complement wrap to a signed 32-bit integer (`ToInt32`). -/
def toInt32 (n : Int) : Int := (n + 2 ^ 31) % 2 ^ 32 - 2 ^ 31

def hashStep (h : Int) (c : Char) : Int :=
  toInt32 (toInt32 (h * 32) - h + (c.toNat : Int))

def getCacheKey (s : String) : String :=
  toString (s.data.foldl hashStep 0)

/-! ### The response sanitizer (`AIService.sanitizeSuggestion`)

One Lean function per regular-expression replacement, applied in the exact
order of the source. -/

def isAsciiLetter (c : Char) : Bool :=
  ('a' ≤ c && c ≤ 'z') || ('A' ≤ c && c ≤ 'Z')

def isDigitC (c : Char) : Bool := '0' ≤ c && c ≤ '9'

def isWordC (c : Char) : Bool := isAsciiLetter c || isDigitC c || c = '_'

def dropWs (s : List Char) : List Char := s.dropWhile isJsWs

def escC : Char := '\x1b'
def belC : Char := '\x07'
def tickC : Char := '\x60'

/-- Try the case-insensitive alternatives in order (regex alternation);
on the first prefix match return the rest of the string. -/
def altCi : List (List Char) → List Char → Option (List Char)
  | [], _ => none
  | c :: t, s =>
    match ciDrop c s with
    | some r => some r
    | none => altCi t s

/-- `replace(/^(COMPLETION:|COMPLETE:|OUTPUT:|RESULT:)/i, "")` -/
def stripAnswerTag (s : List Char) : List Char :=
  match altCi ["COMPLETION:".data, "COMPLETE:".data, "OUTPUT:".data, "RESULT:".data] s with
  | some r => r
  | none => s

/-- The language-identifier removal `replace` with pattern
`^(javascript|python|java|css|html|json|xml|sql)` followed by greedy
whitespace, case-insensitive. -/
def stripLangTag (s : List Char) : List Char :=
  match altCi ["javascript".data, "python".data, "java".data, "css".data,
      "html".data, "json".data, "xml".data, "sql".data] s with
  | some r => dropWs r
  | none => s

def fenceL : List Char := "```".data

/-- First match of `/```(?:[a-zA-Z]*\n)?([\s\S]*?)```/`, returning the
capture.  At each candidate start the behaviour is deterministic: the
optional language tag is consumed when the letter run is followed by a
newline (backtracking inside the tag cannot succeed because the region
contains no backtick), and the lazy capture ends at the first subsequent
fence. -/
def extractFenced : Nat → List Char → Option (List Char)
  | 0, _ => none
  | _ + 1, [] => none
  | fuel + 1, c :: rest =>
    match litDrop fenceL (c :: rest) with
    | some r1 =>
      let lang := r1.takeWhile isAsciiLetter
      let r2 := r1.drop lang.length
      let capStart :=
        match r2 with
        | '\n' :: r3 => r3
        | _ => r1
      match findSubIdx fenceL capStart with
      | some j => some (capStart.take j)
      | none => extractFenced fuel rest
    | none => extractFenced fuel rest

/-- `/```[a-zA-Z]*\n?/g` -/
def mStrayFence : Matcher := fun s =>
  (litDrop fenceL s).map fun r1 =>
    let r2 := r1.drop (r1.takeWhile isAsciiLetter).length
    match r2 with
    | '\n' :: r3 => ([], r3)
    | _ => ([], r2)

/-- The fenced-code-block step: extract the inner content when the capture
is non-empty (JavaScript truthiness of `codeBlockMatch[1]`), otherwise
strip stray fence markers. -/
def codeBlockStep (s : List Char) : List Char :=
  match extractFenced (s.length + 1) s with
  | some cap =>
    if cap ≠ [] then jsTrimL cap
    else replaceAllL fenceL [] (gsubAll mStrayFence s)
  | none => replaceAllL fenceL [] (gsubAll mStrayFence s)

/-- `/<span[^>]*>([^<]*)<\/span>/g` replaced by the capture. -/
def mSpanPair : Matcher := fun s =>
  match litDrop "<span".data s with
  | none => none
  | some r1 =>
    let (_, r2) := r1.span (· ≠ '>')
    match r2 with
    | '>' :: r3 =>
      let (cap, r4) := r3.span (· ≠ '<')
      match litDrop "</span>".data r4 with
      | some r5 => some (cap, r5)
      | none => none
    | _ => none

/-- `/span\s+class=[^>\s]*>/g` -/
def mBrokenSpan : Matcher := fun s =>
  match litDrop "span".data s with
  | none => none
  | some r1 =>
    let (ws, r2) := r1.span isJsWs
    if ws = [] then none
    else
      match litDrop "class=".data r2 with
      | none => none
      | some r3 =>
        let (_, r4) := r3.span (fun c => !(c = '>' || isJsWs c))
        match r4 with
        | '>' :: r5 => some ([], r5)
        | _ => none

/-- `/<span[^>]*>/g` -/
def mOpenSpan : Matcher := fun s =>
  match litDrop "<span".data s with
  | none => none
  | some r1 =>
    let (_, r2) := r1.span (· ≠ '>')
    match r2 with
    | '>' :: r3 => some ([], r3)
    | _ => none

/-- `/class=[^>\s]*\s*/g` -/
def mClassAttr : Matcher := fun s =>
  match litDrop "class=".data s with
  | none => none
  | some r1 =>
    let (_, r2) := r1.span (fun c => !(c = '>' || isJsWs c))
    some ([], dropWs r2)

/-- `/hljs-[a-zA-Z-]+\s*/g` -/
def mHljs : Matcher := fun s =>
  match litDrop "hljs-".data s with
  | none => none
  | some r1 =>
    let (nm, r2) := r1.span (fun c => isAsciiLetter c || c = '-')
    if nm = [] then none else some ([], dropWs r2)

/-- `/style=[^>\s]*\s*/g` -/
def mStyleAttr : Matcher := fun s =>
  match litDrop "style=".data s with
  | none => none
  | some r1 =>
    let (_, r2) := r1.span (fun c => !(c = '>' || isJsWs c))
    some ([], dropWs r2)

/-- At a line start, `/^(\s*)include\s*<([^>]+)>/m`: leading whitespace
(which `\s*` may extend across lines), the word `include`, optional
whitespace, and a bracketed name.  On success return the replacement
`$1#include <$2>` and the rest. -/
def tryIncFix (s : List Char) : Option (List Char × List Char) :=
  let (ws, r1) := s.span isJsWs
  match litDrop "include".data r1 with
  | none => none
  | some r2 =>
    let r3 := dropWs r2
    match r3 with
    | '<' :: r4 =>
      let (nm, r5) := r4.span (· ≠ '>')
      if nm = [] then none
      else
        match r5 with
        | '>' :: r6 => some (ws ++ "#include <".data ++ nm ++ ['>'], r6)
        | _ => none
    | _ => none

/-- `replace(/^(\s*)include\s*<([^>]+)>/gm, "$1#include <$2>")`: the
anchor `^` holds at the string start and right after each newline. -/
def fixIncludeLines : Nat → Bool → List Char → List Char
  | 0, _, s => s
  | _ + 1, _, [] => []
  | fuel + 1, atLS, c :: rest =>
    if atLS then
      match tryIncFix (c :: rest) with
      | some (out, rest') => out ++ fixIncludeLines fuel false rest'
      | none => c :: fixIncludeLines fuel (c = '\n') rest
    else c :: fixIncludeLines fuel (c = '\n') rest

def natDigits (n : Nat) : List Char := (Nat.repr n).data

def inclPh (n : Nat) : List Char := "__INCLUDE_".data ++ natDigits n ++ "__".data

def compPh (n : Nat) : List Char := "__COMP_".data ++ natDigits n ++ "__".data

/-- `/#include\s*<[^>]+>/g`, returning the matched original text. -/
def mIncl : Matcher := fun s =>
  match litDrop "#include".data s with
  | none => none
  | some r1 =>
    let (ws, r2) := r1.span isJsWs
    match r2 with
    | '<' :: r3 =>
      let (nm, r4) := r3.span (· ≠ '>')
      if nm = [] then none
      else
        match r4 with
        | '>' :: r5 => some ("#include".data ++ ws ++ '<' :: (nm ++ ['>']), r5)
        | _ => none
    | _ => none

/-- Protect pass for includes: each match becomes `__INCLUDE_n__` where `n`
counts the matches so far (`protectedIncludes.length` in the source). -/
def protectIncl : Nat → List Char → Nat → List Char × List (List Char × List Char)
  | 0, s, _ => (s, [])
  | _ + 1, [], _ => ([], [])
  | fuel + 1, c :: rest, n =>
    match mIncl (c :: rest) with
    | some (orig, rest') =>
      let ph := inclPh n
      let (out, ps) := protectIncl fuel rest' (n + 1)
      (ph ++ out, (ph, orig) :: ps)
    | none =>
      let (out, ps) := protectIncl fuel rest n
      (c :: out, ps)

/-- `/\w+\s*[<>]=?\s*\w+/g`, returning the matched original text. -/
def mComp : Matcher := fun s =>
  let (w1, r1) := s.span isWordC
  if w1 = [] then none
  else
    let (ws1, r2) := r1.span isJsWs
    match r2 with
    | op :: r3 =>
      if op = '<' || op = '>' then
        let (eq, r4) :=
          match r3 with
          | '=' :: r4 => (['='], r4)
          | _ => ([], r3)
        let (ws2, r5) := r4.span isJsWs
        let (w2, r6) := r5.span isWordC
        if w2 = [] then none
        else some (w1 ++ ws1 ++ op :: (eq ++ ws2 ++ w2), r6)
      else none
    | [] => none

/-- Protect pass for comparisons: each match becomes `__COMP_i__` where `i`
is the offset of the match in the string being scanned (the replacement
callback receives the match offset as `index`). -/
def protectComp : Nat → List Char → Nat → List Char × List (List Char × List Char)
  | 0, s, _ => (s, [])
  | _ + 1, [], _ => ([], [])
  | fuel + 1, c :: rest, pos =>
    match mComp (c :: rest) with
    | some (orig, rest') =>
      let ph := compPh pos
      let (out, ps) := protectComp fuel rest' (pos + orig.length)
      (ph ++ out, (ph, orig) :: ps)
    | none =>
      let (out, ps) := protectComp fuel rest (pos + 1)
      (c :: out, ps)

/-- `/<[^>]*>/g` -/
def mTag : Matcher := fun s =>
  match s with
  | '<' :: r1 =>
    let (_, r2) := r1.span (· ≠ '>')
    match r2 with
    | '>' :: r3 => some ([], r3)
    | _ => none
  | _ => none

/-- Restore pass: `cleaned.replace(placeholder, original)` for each recorded
protection, in order (string pattern: first occurrence only; none of the
recorded originals contains a dollar sign). -/
def restoreAll (ps : List (List Char × List Char)) (s : List Char) : List Char :=
  ps.foldl (fun s p => replaceFirstL p.1 p.2 s) s

/-- Entity decoding, in source order. -/
def decodeEntities (s : List Char) : List Char :=
  replaceAllL "&#39;".data ['\'']
    (replaceAllL "&quot;".data ['"']
      (replaceAllL "&amp;".data ['&']
        (replaceAllL "&gt;".data ['>']
          (replaceAllL "&lt;".data ['<'] s))))

/-- Inline backticks `` /`([^`]*)`/g `` replaced by the capture. -/
def mTickPair : Matcher := fun s =>
  match s with
  | c :: r1 =>
    if c = tickC then
      let (inner, r2) := r1.span (· ≠ tickC)
      match r2 with
      | _ :: r3 => some (inner, r3)
      | [] => none
    else none
  | [] => none

/-- `/\*\*([^*]+)\*\*/g` -/
def mBold : Matcher := fun s =>
  match litDrop "**".data s with
  | none => none
  | some r1 =>
    let (inner, r2) := r1.span (· ≠ '*')
    if inner = [] then none
    else
      match litDrop "**".data r2 with
      | some r3 => some (inner, r3)
      | none => none

/-- `/\*([^*]+)\*/g` -/
def mItalic : Matcher := fun s =>
  match s with
  | '*' :: r1 =>
    let (inner, r2) := r1.span (· ≠ '*')
    if inner = [] then none
    else
      match r2 with
      | _ :: r3 => some (inner, r3)
      | [] => none
  | _ => none

/-- `/#{1,6}\s*/g` (markdown headers; this is the pass that eats the `#`
of a `#include`). -/
def mHeaders : Matcher := fun s =>
  let (hs, _) := s.span (· = '#')
  if hs = [] then none
  else
    let m := min hs.length 6
    let r := s.drop m
    if m = hs.length then some ([], dropWs r) else some ([], r)

def isCsiParam (c : Char) : Bool := isDigitC c || c = ';'

/-- `/\x1b\[[0-9;]*[a-zA-Z]/g` -/
def mAnsiLetter : Matcher := fun s =>
  match s with
  | e :: '[' :: r1 =>
    if e = escC then
      let (_, r2) := r1.span isCsiParam
      match r2 with
      | c :: r3 => if isAsciiLetter c then some ([], r3) else none
      | [] => none
    else none
  | _ => none

/-- `/\x1b\[[0-9;]*m/g` -/
def mAnsiM : Matcher := fun s =>
  match s with
  | e :: '[' :: r1 =>
    if e = escC then
      let (_, r2) := r1.span isCsiParam
      match r2 with
      | 'm' :: r3 => some ([], r3)
      | _ => none
    else none
  | _ => none

/-- `/\x1b\[[\d;]*[HfABCDnK]/g` -/
def mAnsiCursor : Matcher := fun s =>
  match s with
  | e :: '[' :: r1 =>
    if e = escC then
      let (_, r2) := r1.span isCsiParam
      match r2 with
      | c :: r3 =>
        if c = 'H' || c = 'f' || c = 'A' || c = 'B' || c = 'C' || c = 'D'
            || c = 'n' || c = 'K' then some ([], r3) else none
      | [] => none
    else none
  | _ => none

/-- Position after the last semicolon of `run`, if it has one. -/
def lastSemiCut (run : List Char) : Option (List Char) :=
  if run.any (· = ';') then
    some ((run.reverse.dropWhile (· ≠ ';')).reverse)
  else none

/-- `/\x1b\][\d;]*;[^\x07]*\x07/g`: the greedy `[\d;]*` backtracks until
the released character is a semicolon, so the parameter part ends at the
last semicolon of the digit/semicolon run. -/
def mAnsiOsc : Matcher := fun s =>
  match s with
  | e :: ']' :: r1 =>
    if e = escC then
      let (run, r2) := r1.span isCsiParam
      match lastSemiCut run with
      | none => none
      | some pre =>
        let rest := pre ++ r2
        match rest with
        | _ :: r3 =>
          let (_, r4) := r3.span (· ≠ belC)
          match r4 with
          | _ :: r5 => some ([], r5)
          | [] => none
        | [] => none
    else none
  | _ => none

/-- `/\x1b[c-fA-F]/g` -/
def mAnsiSingle : Matcher := fun s =>
  match s with
  | e :: c :: r =>
    if e = escC && (('c' ≤ c && c ≤ 'f') || ('A' ≤ c && c ≤ 'F')) then
      some ([], r)
    else none
  | _ => none

def boxChars : List Char := "│┌┐└┘├┤┬┴┼─═║╔╗╚╝╠╣╦╩╬".data

def smartQuotes : List Char := "“”‘’".data

def dashChars : List Char := "–—".data

def isCtrlStripped (c : Char) : Bool :=
  (c.toNat ≤ 0x08) || c.toNat = 0x0b || c.toNat = 0x0c ||
    (0x0e ≤ c.toNat && c.toNat ≤ 0x1f) || c.toNat = 0x7f

def isKeptPrintable (c : Char) : Bool :=
  (0x20 ≤ c.toNat && c.toNat ≤ 0x7e) || c = '\t' || c = '\n' || c = '\r'

/-- `/[ \t]+/g` collapsed to a single space. -/
def mSpaceRun : Matcher := fun s =>
  let (run, r) := s.span (fun c => c = ' ' || c = '\t')
  if run = [] then none else some ([' '], r)

/-- Inner backtracking for `/\n\s*\n\s*\n/`: try whitespace-run lengths
from `k` downwards until the next character is a newline. -/
def nlDescend (r : List Char) : Nat → Option (List Char)
  | 0 =>
    match r with
    | '\n' :: rest => some rest
    | _ => none
  | k + 1 =>
    match r.drop (k + 1) with
    | '\n' :: rest => some rest
    | _ => nlDescend r k

/-- Outer backtracking for `/\n\s*\n\s*\n/g`. -/
def nlOuter (r1 : List Char) : Nat → Option (List Char)
  | 0 =>
    match r1 with
    | '\n' :: r2 => nlDescend r2 ((r2.takeWhile isJsWs).length)
    | _ => none
  | k + 1 =>
    match r1.drop (k + 1) with
    | '\n' :: r2 =>
      match nlDescend r2 ((r2.takeWhile isJsWs).length) with
      | some rest => some rest
      | none => nlOuter r1 k
    | _ => nlOuter r1 k

/-- `replace(/\n\s*\n\s*\n/g, "\n\n")` -/
def mTripleNl : Matcher := fun s =>
  match s with
  | '\n' :: r1 =>
    match nlOuter r1 ((r1.takeWhile isJsWs).length) with
    | some rest => some (['\n', '\n'], rest)
    | none => none
  | _ => none

/-- Keyword alternation with the continuation `":" then \s* then (.*)`
threaded through each alternative (regex backtracking). -/
def kwColonCapture : List (List Char) → List Char → Option (List Char)
  | [], _ => none
  | kw :: t, w =>
    match ciDrop kw w with
    | some w1 =>
      match w1 with
      | ':' :: w2 => some ((dropWs w2).takeWhile (· ≠ '\n'))
      | _ => kwColonCapture t w
    | none => kwColonCapture t w

def compKwds : List (List Char) := ["completion".data, "code".data, "suggestion".data]

/-- Match of `/(?:here'?s?\s*(?:the\s*)?(?:completion|code|suggestion):\s*)(.*)/i`
at the current position, returning the capture.  The optional apostrophe is
deterministic (skipping it cannot help, as no later token starts with an
apostrophe); the optional `s` and the optional `the\s*` are tried greedily
with fallback. -/
def matchP1 (u : List Char) : Option (List Char) :=
  match ciDrop "here".data u with
  | none => none
  | some u1 =>
    let u2 :=
      match u1 with
      | '\'' :: t => t
      | _ => u1
    let cont : List Char → Option (List Char) := fun v =>
      let v1 := dropWs v
      let withThe :=
        match ciDrop "the".data v1 with
        | some w => kwColonCapture compKwds (dropWs w)
        | none => none
      match withThe with
      | some cap => some cap
      | none => kwColonCapture compKwds v1
    match u2 with
    | c :: t =>
      if lowerC c = 's' then
        match cont t with
        | some cap => some cap
        | none => cont u2
      else cont u2
    | [] => cont u2

/-- After a `:`, capture the rest of the line past optional whitespace. -/
def colonCap : List Char → Option (List Char)
  | ':' :: w2 => some ((dropWs w2).takeWhile (· ≠ '\n'))
  | _ => none

/-- `/(?:the\s*(?:completion|code|suggestion)\s*(?:is|would\s*be):\s*)(.*)/i` -/
def matchP2 (u : List Char) : Option (List Char) :=
  match ciDrop "the".data u with
  | none => none
  | some u1 => go compKwds (dropWs u1)
where
  go : List (List Char) → List Char → Option (List Char)
    | [], _ => none
    | kw :: t, v =>
      match ciDrop kw v with
      | some v1 =>
        let w := dropWs v1
        let viaIs :=
          match ciDrop "is".data w with
          | some w1 => colonCap w1
          | none => none
        let hit :=
          match viaIs with
          | some cap => some cap
          | none =>
            match ciDrop "would".data w with
            | some x =>
              match ciDrop "be".data (dropWs x) with
              | some y => colonCap y
              | none => none
            | none => none
        match hit with
        | some cap => some cap
        | none => go t v
      | none => go t v

/-- `/(?:complete\s*(?:with|as):\s*)(.*)/i` -/
def matchP3 (u : List Char) : Option (List Char) :=
  match ciDrop "complete".data u with
  | none => none
  | some u1 => kwColonCapture ["with".data, "as".data] (dropWs u1)

/-- `/(?:add:\s*)(.*)/i` -/
def matchP4 (u : List Char) : Option (List Char) :=
  match ciDrop "add:".data u with
  | none => none
  | some u1 => some ((dropWs u1).takeWhile (· ≠ '\n'))

/-- Leftmost match of an unanchored pattern. -/
def findLeft (m : List Char → Option (List Char)) : Nat → List Char → Option (List Char)
  | 0, _ => none
  | fuel + 1, s =>
    match m s with
    | some cap => some cap
    | none =>
      match s with
      | [] => none
      | _ :: rest => findLeft m fuel rest

/-- The `codePatterns` loop: first pattern whose first match has a
non-empty capture wins; a match with an empty capture is skipped
(`if (match && match[1])`). -/
def applyCodePats : List (List Char → Option (List Char)) → List Char → List Char
  | [], s => s
  | f :: rest, s =>
    match findLeft f (s.length + 1) s with
    | some cap => if cap ≠ [] then jsTrimL cap else applyCodePats rest s
    | none => applyCodePats rest s

def endKwds1 : List (List Char) := ["complete".data, "finish".data, "end".data]

/-- Group of endPattern 1: `\s*(?:this|that|which)\s+(?:completes?|finishes?|ends?)`
(the trailing `s?` and `.*` always succeed and do not affect the capture). -/
def groupE1 (u : List Char) : Bool :=
  go ["this".data, "that".data, "which".data] (dropWs u)
where
  go : List (List Char) → List Char → Bool
    | [], _ => false
    | kw :: t, v =>
      (match ciDrop kw v with
        | some v1 =>
          let ws := v1.takeWhile isJsWs
          if ws = [] then go t v
          else (endKwds1.any fun b => (ciDrop b (dropWs v1)).isSome) || go t v
        | none => go t v)

/-- Group of endPattern 2: `\s*(?:to\s+)?(?:complete|finish|end)`. -/
def groupE2 (u : List Char) : Bool :=
  let v := dropWs u
  let withTo :=
    match ciDrop "to".data v with
    | some x =>
      let ws := x.takeWhile isJsWs
      if ws = [] then false
      else endKwds1.any fun b => (ciDrop b (dropWs x)).isSome
    | none => false
  withTo || endKwds1.any fun b => (ciDrop b v).isSome

/-- `^(.+?)(?:group)` with a lazy dot-prefix: the shortest non-empty
newline-free prefix after which the group matches; returns that prefix. -/
def findEndCut (group : List Char → Bool) (s : List Char) : Option (List Char) :=
  match s with
  | [] => none
  | c :: t => if c = '\n' then none else go [c] t (t.length + 1)
where
  go (acc : List Char) : List Char → Nat → Option (List Char)
    | rest, 0 => if group rest then some acc.reverse else none
    | rest, fuel + 1 =>
      if group rest then some acc.reverse
      else
        match rest with
        | [] => none
        | c :: t => if c = '\n' then none else go (c :: acc) t fuel

/-- The `endPatterns` loop. -/
def applyEndPats (s : List Char) : List Char :=
  match findEndCut groupE1 s with
  | some cap => jsTrimL cap
  | none =>
    match findEndCut groupE2 s with
    | some cap => jsTrimL cap
    | none => s

/-- The full ordered pipeline of `AIService.sanitizeSuggestion`
(src/src/command-parser.js lines 1491-1631). -/
def sanitizeL (s0 : List Char) : List Char :=
  let s := stripAnswerTag s0
  let s := stripLangTag s
  let s := codeBlockStep s
  let s := gsubAll mSpanPair s
  let s := gsubAll mBrokenSpan s
  let s := gsubAll mOpenSpan s
  let s := replaceAllL "</span>".data [] s
  let s := replaceAllL "span>".data [] s
  let s := replaceAllL "/span>".data [] s
  let s := gsubAll mClassAttr s
  let s := gsubAll mHljs s
  let s := gsubAll mStyleAttr s
  let s := fixIncludeLines (s.length + 1) true s
  let (s, incls) := protectIncl (s.length + 1) s 0
  let (s, comps) := protectComp (s.length + 1) s 0
  let s := gsubAll mTag s
  let s := restoreAll incls s
  let s := restoreAll comps s
  let s := decodeEntities s
  let s := gsubAll mTickPair s
  let s := gsubAll mBold s
  let s := gsubAll mItalic s
  let s := gsubAll mHeaders s
  let s := gsubAll mAnsiLetter s
  let s := gsubAll mAnsiM s
  let s := gsubAll mAnsiCursor s
  let s := gsubAll mAnsiOsc s
  let s := gsubAll mAnsiSingle s
  let s := s.map (fun c => if boxChars.contains c then '|' else c)
  let s := s.map (fun c => if smartQuotes.contains c then '"' else c)
  let s := s.map (fun c => if dashChars.contains c then '-' else c)
  let s := s.filter (fun c => !(isCtrlStripped c))
  let s := s.filter isKeptPrintable
  let s := gsubAll mSpaceRun s
  let s := gsubAll mTripleNl s
  let s := jsTrimL s
  let s := applyCodePats
    [matchP1, matchP2, matchP3, matchP4] s
  let s := applyEndPats s
  s

/-- `AIService.sanitizeSuggestion` (the `if (!suggestion) return ""` guard
plus the pipeline). -/
def sanitizeSuggestion (s : String) : String :=
  if s = "" then "" else String.mk (sanitizeL s.data)

/-! ### The context extractor (`AIService.getCodeContext`)

Two implementations exist: the one in the AIService class embedded in
src/src/command-parser.js (50 lines / 800 chars, with a prioritized
boundary list) and the one in src/src/ai-service.js (100 lines / 1000
chars, re-anchoring at the first newline); the editor instantiates the
latter. -/

/-- Truncate the last line of the slice at the cursor column
(`contextLines[lastLineIndex] = lastLine.substring(0, cursorCol)`). -/
def truncLastAt (col : Nat) : List (List Char) → List (List Char)
  | [] => []
  | [a] => [a.take col]
  | a :: b :: t => a :: truncLastAt col (b :: t)

/-- The prioritized boundary list of the command-parser variant. -/
def cpBoundaries : List (List Char) :=
  ["\n\n".data, "\nfunction ".data, "\nclass ".data, "\ndef ".data,
    "\n  ".data, "\n".data]

/-- `bestStart` scan: first boundary whose first occurrence lies in the
first half of the truncated context (`index > 0 && index < length / 2`);
the cut is placed after the boundary. -/
def findBoundaryCut (ctx : List Char) : Nat :=
  go cpBoundaries
where
  go : List (List Char) → Nat
    | [] => 0
    | b :: t =>
      match findSubIdx b ctx with
      | some i => if 0 < i && 2 * i < ctx.length then i + b.length else go t
      | none => go t

/-- The `maxChars` truncation shared by both variants: when the joined
context is too long keep its tail of `maxChars` characters, then try to
re-anchor the start at a boundary; `cut` returns how many further
characters to drop (`0` when no acceptable boundary was found, matching
`bestStart = 0` resp. `firstNewline <= 0`). -/
def clipCore (cut : List Char → Nat) (ctx : List Char) : List Char :=
  if 0 < cut ctx then ctx.drop (cut ctx) else ctx

def clipTail (maxChars : Nat) (cut : List Char → Nat) (ctx : List Char) : List Char :=
  if maxChars < ctx.length then clipCore cut (ctx.drop (ctx.length - maxChars))
  else ctx

/-- The re-anchor rule of the ai-service.js variant:
`firstNewline = indexOf("\n"); if (firstNewline > 0) substring(firstNewline + 1)`. -/
def firstNlCut (ctx : List Char) : Nat :=
  match findSubIdx ['\n'] ctx with
  | some i => if 0 < i then i + 1 else 0
  | none => 0

/-- `AIService.getCodeContext`, command-parser variant
(maxLines 50, maxChars 800). -/
def getCodeContextCP (lines : List (List Char)) (row col : Nat) : List Char :=
  clipTail 800 findBoundaryCut
    (joinNl (truncLastAt col ((lines.take (row + 1)).drop (row + 1 - 50))))

/-- `AIService.getCodeContext`, ai-service.js variant
(maxLines 100, maxChars 1000). -/
def getCodeContextAS (lines : List (List Char)) (row col : Nat) : List Char :=
  clipTail 1000 firstNlCut
    (joinNl (truncLastAt col ((lines.take (row + 1)).drop (row + 1 - 100))))

/-- The document text strictly before the cursor: all earlier lines plus
the prefix of the cursor line up to the cursor column, joined by
newlines.  This characterizes what the spec allows a context to contain. -/
def preCursorText (lines : List (List Char)) (row col : Nat) : List Char :=
  joinNl (lines.take row ++ [(lines.getD row []).take col])

/-! ### The suggestion cache

A JavaScript `Map` keyed by `getCacheKey`, modelled as an association
list in insertion order with unique keys. -/

abbrev Cache := List (String × String)

/-- `Map.prototype.get` (with `has` folded in). -/
def mapGet (c : Cache) (k : String) : Option String :=
  (c.find? (fun e => e.1 = k)).map (·.2)

/-- `Map.prototype.set`: update in place, keeping the original insertion
position, or append. -/
def mapSet : Cache → String → String → Cache
  | [], k, v => [(k, v)]
  | e :: t, k, v => if e.1 = k then (k, v) :: t else e :: mapSet t k v

/-- `Map.prototype.delete` (the key occurs at most once in a `Map`). -/
def mapDelete : Cache → String → Cache
  | [], _ => []
  | e :: t, k => if e.1 = k then t else e :: mapDelete t k

/-- `cache.keys().next().value`: the first-inserted key. -/
def firstCacheKey (c : Cache) : String := (c.head?.map (·.1)).getD ""

/-- `AIService.cacheResult`: evict the first-inserted entry when the cache
is full, then insert. -/
def cacheResult (k v : String) (c : Cache) : Cache :=
  mapSet (if 50 ≤ c.length then mapDelete c (firstCacheKey c) else c) k v

/-- The cache check at the top of `getAISuggestion`:
`if (this.cache.has(cacheKey)) return this.cache.get(cacheKey)`. -/
def cacheLookup (c : Cache) (context : String) : Option String :=
  mapGet c (getCacheKey context)

/-- A lookup as a state transition: it returns the cache unchanged. -/
def lookupOp (c : Cache) (k : String) : Cache × Option String := (c, mapGet c k)

/-! ### Model switching (`AIService.setModel`, `AIService.getSupportedModels`,
command-parser variant) -/

def setModelAccepted : List String :=
  ["mixtral-8x7b-32768", "llama3-8b-8192", "llama3-70b-8192", "gemma-7b-it"]

def getSupportedModels : List String :=
  ["llama3-8b-8192", "llama3-70b-8192", "llama-3.1-8b-instant",
    "llama-3.1-70b-versatile", "gemma-7b-it", "gemma2-9b-it"]

structure AISvcSt where
  model : String
  cache : Cache
deriving Repr, DecidableEq

/-- `AIService.setModel`: accept only the fixed list, clearing the cache on
success; otherwise leave the service untouched and return `false`. -/
def setModel (st : AISvcSt) (name : String) : Bool × AISvcSt :=
  if name ∈ setModelAccepted then (true, { model := name, cache := [] })
  else (false, st)

/-! ### Error messages and their classification

The messages thrown by `getAISuggestion` (command-parser.js lines
1435-1454) and the classification performed by the catch block of
`Editor.handleAIPreviewCompletion` (editor.js lines 649-661). -/

def authErrorMsg : String := "Authentication failed - check your GROQ_API_KEY"
def rateErrorMsg : String := "Rate limit exceeded - please try again later"
def timeoutErrorMsg : String := "Request timeout - AI service took too long to respond"
def networkErrorMsg : String := "Network error - check your internet connection"

/-- The notification decision of the catch block: authentication and
rate-limit messages yield a user-visible message (with its level), all
other failures are logged only. -/
def classifyError (msg : String) : Option (String × String) :=
  if hasSub "Authentication".data msg.data || hasSub "API key".data msg.data then
    some ("[AI] Check API key configuration", "error")
  else if hasSub "Rate limit".data msg.data then
    some ("[AI] Rate limit reached", "warning")
  else none

/-! ### The editor (src/src/editor.js)

The editor state carries the text buffer (lines and cursor, as in
text-buffer.js), the modal state, and the ad hoc asynchronous-completion
fields of the Editor object: `aiPreviewSuggestion`, `aiCompletionInProgress`
and the pending debounce timer.  The suspension of
`handleAIPreviewCompletion` at its `await` is modelled by `inflight`,
recording the values the function captured before suspending (the cursor
line and cursor column, both copied by value: `getCursor` returns a fresh
object and `currentLine` is a string).  Interleavings of key events with
request start/resolution are event lists. -/

inductive Mode
  | normal
  | insert
  | command
deriving DecidableEq, Repr

inductive Key
  | escape
  | ret
  | backspace
  | tab
  | left
  | down
  | up
  | right
  | char (c : Char)
deriving DecidableEq, Repr

structure EditorSt where
  lines : List (List Char)
  row : Nat
  col : Nat
  mode : Mode
  aiPreviewSuggestion : Option (List Char)
  aiCompletionInProgress : Bool
  aiPreviewTimeout : Bool
  inflight : Option (List Char × Nat)
  aiAvailable : Bool
deriving DecidableEq, Repr

/-! Text-buffer operations (src/src/text-buffer.js). -/

def bufInsertChar (st : EditorSt) (c : Char) : EditorSt :=
  let line := st.lines.getD st.row []
  { st with
    lines := st.lines.set st.row (line.take st.col ++ c :: line.drop st.col)
    col := st.col + 1 }

def bufInsertNewLine (st : EditorSt) : EditorSt :=
  let line := st.lines.getD st.row []
  { st with
    lines := (st.lines.set st.row (line.take st.col)).insertIdx (st.row + 1) (line.drop st.col)
    row := st.row + 1
    col := 0 }

def bufDeleteChar (st : EditorSt) : EditorSt :=
  if 0 < st.col then
    let line := st.lines.getD st.row []
    { st with
      lines := st.lines.set st.row (line.take (st.col - 1) ++ line.drop st.col)
      col := st.col - 1 }
  else if 0 < st.row then
    let prev := st.lines.getD (st.row - 1) []
    let cur := st.lines.getD st.row []
    { st with
      lines := (st.lines.set (st.row - 1) (prev ++ cur)).eraseIdx st.row
      row := st.row - 1
      col := prev.length }
  else st

def bufMoveLeft (st : EditorSt) : EditorSt :=
  if 0 < st.col then { st with col := st.col - 1 }
  else if 0 < st.row then
    { st with row := st.row - 1, col := (st.lines.getD (st.row - 1) []).length }
  else st

def bufMoveRight (st : EditorSt) : EditorSt :=
  if st.col < (st.lines.getD st.row []).length then { st with col := st.col + 1 }
  else if st.row + 1 < st.lines.length then { st with row := st.row + 1, col := 0 }
  else st

def bufMoveUp (st : EditorSt) : EditorSt :=
  if 0 < st.row then
    let row := st.row - 1
    { st with row := row, col := min st.col (st.lines.getD row []).length }
  else st

def bufMoveDown (st : EditorSt) : EditorSt :=
  if st.row + 1 < st.lines.length then
    let row := st.row + 1
    { st with row := row, col := min st.col (st.lines.getD row []).length }
  else st

/-! Editor-side suggestion post-processing. -/

def quoteLike (c : Char) : Bool := c = '"' || c = '\'' || c = tickC

/-- `replace(/^["'`]/, "").replace(/["'`]$/, "")`. -/
def quoteStrip (cleaned : List Char) : List Char :=
  let cleaned :=
    match cleaned with
    | c :: t => if quoteLike c then t else cleaned
    | [] => []
  match cleaned.reverse with
  | c :: t => if quoteLike c then t.reverse else cleaned
  | [] => cleaned

/-- The last whitespace-delimited word before the cursor:
`textBeforeCursor.split(/\s+/).pop() || ""`. -/
def lastWordBefore (curLine : List Char) (col : Nat) : List Char :=
  ((jsSplitWs (curLine.take col)).getLast?).getD []

/-- The front of `Editor.cleanAISuggestion`: trim, duplicate-word removal
against the last whitespace-delimited word before the cursor
(case-insensitive), and the leading/trailing quote strip. -/
def cleanStage1 (sugg curLine : List Char) (col : Nat) : List Char :=
  let cleaned := jsTrimL sugg
  let lastWord := lastWordBefore curLine col
  let cleaned :=
    if lastWord ≠ [] ∧ (lowerL lastWord).isPrefixOf (lowerL cleaned) = true then
      cleaned.drop lastWord.length
    else cleaned
  quoteStrip cleaned

/-- The length limit of `Editor.cleanAISuggestion`: single-line suggestions
are cut at 60 characters, multi-line suggestions at their first 2 lines. -/
def truncStage (c : List Char) : List Char :=
  if hasSub ['\n'] c then
    let ls := splitNl c
    if 2 < ls.length then joinNl (ls.take 2) else c
  else c.take 60

/-- The tail of `Editor.cleanAISuggestion` after the duplicate-word strip:
quote strip, truncation, character filter, trim. -/
def cleanTail (cleaned : List Char) : List Char :=
  jsTrimL ((truncStage (quoteStrip cleaned)).filter isKeptPrintable)

/-- `Editor.cleanAISuggestion` (editor.js lines 912-945). -/
def cleanAISuggestionL (sugg curLine : List Char) (col : Nat) : List Char :=
  if sugg = [] then []
  else jsTrimL ((truncStage (cleanStage1 sugg curLine col)).filter isKeptPrintable)

/-- `Editor.stripAnsiCodes`. -/
def stripAnsiL (t : List Char) : List Char := gsubAll mAnsiM t

/-- `/```[\s\S]*?```/g`: a lazy fenced pair, removed outright. -/
def mFencePair : Matcher := fun s =>
  (litDrop fenceL s).bind fun r1 =>
    (findSubIdx fenceL r1).map fun j => ([], r1.drop (j + 3))

/-- `Editor.sanitizeForDisplay` (editor.js lines 854-878). -/
def sanitizeForDisplayL (t : List Char) : List Char :=
  if t = [] then []
  else
    let c := gsubAll mAnsiLetter t
    let c := gsubAll mAnsiM c
    let c := gsubAll mTag c
    let c := gsubAll mFencePair c
    let c := gsubAll mTickPair c
    let c := c.filter fun ch =>
      (0x20 ≤ ch.toNat && ch.toNat ≤ 0x7e) || ch = '\t' || ch = '\n'
    jsTrimL c

/-- `chalk.gray.dim`: the visually distinct ghost-text styling. -/
def ghostWrap (s : List Char) : List Char :=
  "\x1b[90m\x1b[2m".data ++ s ++ "\x1b[22m\x1b[39m".data

/-- `Editor.insertAIPreviewInLine` (editor.js lines 828-849): the
display-only composition of a line with the preview suggestion. -/
def insertAIPreviewInLine (line : List Char) (cursorCol : Nat) (sugg : List Char) :
    List Char :=
  if sugg = [] then line
  else if sanitizeForDisplayL sugg = [] then line
  else
    (stripAnsiL line).take cursorCol ++ ghostWrap (sanitizeForDisplayL sugg) ++
      (stripAnsiL line).drop cursorCol

/-- `Editor.clearAIPreview`: null the preview suggestion (the status-line
message is display only) and clear the pending debounce timer. -/
def clearAIPreviewE (st : EditorSt) : EditorSt :=
  { st with aiPreviewSuggestion := none, aiPreviewTimeout := false }

/-- `Editor.triggerAIPreviewDebounced`: restart the debounce timer unless
the service is unavailable or a request is already in flight. -/
def triggerDebounced (st : EditorSt) : EditorSt :=
  if !st.aiAvailable || st.aiCompletionInProgress then st
  else { st with aiPreviewTimeout := true }

/-- The row clamp of `Editor.ensureCursorSync`. -/
def syncRow (st : EditorSt) : Nat :=
  if st.lines.length ≤ st.row then st.lines.length - 1 else st.row

/-- `Editor.ensureCursorSync` (editor.js lines 801-823): clamp the cursor
to the buffer; the lines are never written. -/
def ensureCursorSync (st : EditorSt) : EditorSt :=
  { st with
    row := syncRow st
    col :=
      if (st.lines.getD (syncRow st) []).length < st.col then
        (st.lines.getD (syncRow st) []).length
      else st.col }

/-- The per-line treatment inside `Editor.render`'s
`content.map((line, index) => ...)`: the cursor line is composed with the
preview when a suggestion is present and the editor is in insert mode. -/
def composeAt (st : EditorSt) (i : Nat) (line : List Char) : List Char :=
  match st.aiPreviewSuggestion with
  | some s =>
    if i = st.row ∧ st.mode = Mode.insert then
      insertAIPreviewInLine line st.col s
    else line
  | none => line

/-- `Array.prototype.map` with the element index. -/
def mapWithIdx (f : Nat → List Char → List Char) :
    Nat → List (List Char) → List (List Char)
  | _, [] => []
  | i, l :: t => f i l :: mapWithIdx f (i + 1) t

/-- The preview composition inside `Editor.render`, applied to the whole
document.  This happens before syntax highlighting is applied. -/
def processedContent (st : EditorSt) : List (List Char) :=
  mapWithIdx (composeAt st) 0 st.lines

/-- `Editor.render`, parameterized by the highlighter
(`syntaxHighlighter.highlightLines`): sync the cursor, compose the preview
into the display lines, then highlight the composed lines.  The returned
state is the render's only effect on the editor state. -/
def render (h : List (List Char) → List (List Char)) (st : EditorSt) :
    EditorSt × List (List Char) :=
  (ensureCursorSync st, h (processedContent (ensureCursorSync st)))

/-- `Editor.insertAISuggestion`: trim, then insert the suggestion into the
buffer line by line (only used on accept). -/
def insertAISuggestionB (st : EditorSt) (sugg : List Char) : EditorSt :=
  let s := jsTrimL sugg
  if s = [] then st
  else
    match splitNl s with
    | [] => st
    | first :: rest =>
      let st := first.foldl bufInsertChar st
      rest.foldl (fun st line => line.foldl bufInsertChar (bufInsertNewLine st)) st

/-- `Editor.acceptAIPreview`. -/
def acceptAIPreview (st : EditorSt) : EditorSt :=
  match st.aiPreviewSuggestion with
  | some s => clearAIPreviewE (insertAISuggestionB st s)
  | none => st

/-- The synchronous prefix of `Editor.handleAIPreviewCompletion` up to its
`await`: the in-progress/availability gate, the suggestion-suppression
guards (each early `return` runs the `finally`, resetting the flag), the
context extraction (through the ai-service.js variant the editor
instantiates) and the capture of the values used after the `await`. -/
def handleAIPreviewGate (st : EditorSt) : EditorSt :=
  if st.aiCompletionInProgress || !st.aiAvailable then st
  else
    let st := ensureCursorSync st
    let curLine := st.lines.getD st.row []
    if st.col = 0 && jsTrimL curLine = [] then st
    else
      let charBefore := if 0 < st.col then curLine.get? (st.col - 1) else none
      let punctStop :=
        match charBefore with
        | some ch => ch = ';' || ch = '}' || ch = ']' || ch = ')'
        | none => false
      if punctStop then st
      else
        let context := getCodeContextAS st.lines st.row st.col
        if (jsTrimL context).length < 10 then st
        else
          { st with
            aiCompletionInProgress := true
            inflight := some (curLine, st.col) }

/-- The debounce-timer expiry: the callback only fires the completion in
insert mode. -/
def debounceFireE (st : EditorSt) : EditorSt :=
  if st.aiPreviewTimeout then
    let st := { st with aiPreviewTimeout := false }
    if st.mode = Mode.insert then handleAIPreviewGate st else st
  else st

/-- The continuation of `handleAIPreviewCompletion` after its `await`
resolves with `raw`: clean the suggestion against the captured line and
column, store a non-empty result as the preview, and run the `finally`. -/
def handleAISuccess (st : EditorSt) (raw : List Char) : EditorSt :=
  match st.inflight with
  | none => st
  | some (curLine, capturedCol) =>
    let st := { st with inflight := none, aiCompletionInProgress := false }
    if raw ≠ [] then
      let clean := cleanAISuggestionL raw curLine capturedCol
      if clean ≠ [] then { st with aiPreviewSuggestion := some clean } else st
    else st

/-- The catch block of `handleAIPreviewCompletion` plus its `finally`:
classify the error message for the status line, leave the preview alone,
reset the in-progress flag. -/
def handleAIFailure (st : EditorSt) (msg : String) :
    EditorSt × Option (String × String) :=
  ({ st with inflight := none, aiCompletionInProgress := false },
    classifyError msg)

/-- `Editor.handleInsertModeKeys` (editor.js lines 204-255). -/
def handleInsertKey (st : EditorSt) (k : Key) : EditorSt :=
  match k with
  | .escape => { clearAIPreviewE st with mode := Mode.normal }
  | .ret => bufInsertNewLine (clearAIPreviewE st)
  | .backspace => triggerDebounced (bufDeleteChar (clearAIPreviewE st))
  | .tab =>
    if st.aiPreviewSuggestion.isSome then acceptAIPreview st
    else if st.aiAvailable && !st.aiCompletionInProgress then handleAIPreviewGate st
    else bufInsertChar st '\t'
  | .left => bufMoveLeft (clearAIPreviewE st)
  | .down => bufMoveDown (clearAIPreviewE st)
  | .up => bufMoveUp (clearAIPreviewE st)
  | .right => bufMoveRight (clearAIPreviewE st)
  | .char c => triggerDebounced (bufInsertChar (clearAIPreviewE st) c)

/-- `Editor.handleNormalModeKeys` (clears the preview, then dispatches). -/
def handleNormalKey (st : EditorSt) (k : Key) : EditorSt :=
  let st := clearAIPreviewE st
  match k with
  | .char ':' => { st with mode := Mode.command }
  | .char 'i' => { st with mode := Mode.insert }
  | .char 'h' => bufMoveLeft st
  | .char 'j' => bufMoveDown st
  | .char 'k' => bufMoveUp st
  | .char 'l' => bufMoveLeft st
  | .left => bufMoveLeft st
  | .down => bufMoveDown st
  | .up => bufMoveUp st
  | .right => bufMoveRight st
  | _ => st

/-- The asynchronous interleaving: key events, debounce expiry, and the
resolution (success or failure) of the single in-flight provider call. -/
inductive EditorEvt
  | key (k : Key)
  | debounceFire
  | aiSuccess (raw : List Char)
  | aiFailure (msg : String)

def stepE (st : EditorSt) (e : EditorEvt) : EditorSt :=
  match e with
  | .key k =>
    match st.mode with
    | Mode.insert => handleInsertKey st k
    | Mode.normal => handleNormalKey st k
    | Mode.command => clearAIPreviewE st
  | .debounceFire => debounceFireE st
  | .aiSuccess raw => handleAISuccess st raw
  | .aiFailure msg => (handleAIFailure st msg).1

def runEvents (st : EditorSt) (es : List EditorEvt) : EditorSt :=
  es.foldl stepE st

/-! ## Claim theorems -/

/-- C1: evaluation of the sanitizer on the three spec test inputs.  The
second and third behave as the spec states, but `"#include <iostream>"`
comes back as `"include <iostream>"`: the protect/restore passes shield
the include from tag removal, yet the later markdown-header pass
`/#{1,6}\s*/g` runs after restoration and strips the leading `#`.  The
repository's own sanitization test expects the include unchanged. -/
theorem C1_protected_construct_outputs :
    sanitizeSuggestion "#include <iostream>" = "include <iostream>" ∧
    sanitizeSuggestion "if (a < b && c > d) \x7b" = "if (a < b && c > d) \x7b" ∧
    sanitizeSuggestion "<span class=\"hljs-keyword\">function</span> foo()" =
      "function foo()" := by
  exact ⟨by decide, by decide, by decide⟩

/-- C2 counterexample: the pipeline is not idempotent.  On
`"&amp;lt;"` the first pass decodes `&amp;` to `&`, producing `"&lt;"`,
which a second pass decodes further to `"<"`. -/
theorem C2_idempotence_counterexample :
    sanitizeSuggestion (sanitizeSuggestion "&amp;lt;") ≠
      sanitizeSuggestion "&amp;lt;" := by decide

/-- C2 (amended): the pipeline is idempotent on the spec's sampled
contaminated inputs (the three protected-construct samples and the
Scenario B provider output), though not on every string. -/
theorem C2_idempotent_on_spec_samples :
    sanitizeSuggestion (sanitizeSuggestion "#include <iostream>") =
      sanitizeSuggestion "#include <iostream>" ∧
    sanitizeSuggestion (sanitizeSuggestion "if (a < b && c > d) \x7b") =
      sanitizeSuggestion "if (a < b && c > d) \x7b" ∧
    sanitizeSuggestion
        (sanitizeSuggestion "<span class=\"hljs-keyword\">function</span> foo()") =
      sanitizeSuggestion "<span class=\"hljs-keyword\">function</span> foo()" ∧
    sanitizeSuggestion (sanitizeSuggestion
        "<span class=\"hljs-function\">function</span> <span class=\"hljs-title\">greet</span>(name) { }") =
      sanitizeSuggestion
        "<span class=\"hljs-function\">function</span> <span class=\"hljs-title\">greet</span>(name) { }" := by
  exact ⟨by decide, by decide, by decide, by decide⟩

/-- The initial editor state of the staleness scenario: insert mode, one
line of text, the cursor at its end, a debounce timer pending. -/
def c3Init : EditorSt :=
  { lines := ["const x = foo".data], row := 0, col := 13, mode := Mode.insert,
    aiPreviewSuggestion := none, aiCompletionInProgress := false,
    aiPreviewTimeout := true, inflight := none, aiAvailable := true }

/-- The staleness scenario: the debounce timer fires and issues a request;
the user moves the cursor (a cancelling event, which clears the preview);
only then does the provider respond. -/
def c3Trace : List EditorEvt :=
  [EditorEvt.debounceFire, EditorEvt.key Key.left,
    EditorEvt.aiSuccess "bar(1, 2);".data]

/-- C3: the code has no generation counter, so a late-arriving response
does populate the preview state.  After the debounce fires a request is in
flight; the cursor-move cancelling event leaves no preview; yet when the
response then resolves, the suggestion is stored and the editor is still
in insert mode, so the stale preview is rendered. -/
theorem C3_stale_response_populates_preview :
    (runEvents c3Init [EditorEvt.debounceFire]).inflight =
      some ("const x = foo".data, 13) ∧
    (runEvents c3Init (c3Trace.take 2)).aiPreviewSuggestion = none ∧
    (runEvents c3Init c3Trace).aiPreviewSuggestion = some "bar(1, 2);".data ∧
    (runEvents c3Init c3Trace).mode = Mode.insert := by
  exact ⟨by decide, by decide, by decide, by decide⟩

/-! Lemmas for the context-boundary claim. -/

theorem joinNl_suffix_cons (a : List Char) (t : List (List Char)) :
    joinNl t <:+ joinNl (a :: t) := by
  cases t with
  | nil => exact List.nil_suffix
  | cons b t' => exact ⟨a ++ ['\n'], by simp [joinNl]⟩

theorem joinNl_drop_suffix (k : Nat) (ls : List (List Char)) :
    joinNl (ls.drop k) <:+ joinNl ls := by
  induction k generalizing ls with
  | zero => exact List.suffix_refl _
  | succ k ih =>
    cases ls with
    | nil => exact List.suffix_refl _
    | cons a t => exact (ih t).trans (joinNl_suffix_cons a t)

theorem truncLastAt_drop (col k : Nat) (ls : List (List Char)) (h : k < ls.length) :
    truncLastAt col (ls.drop k) = (truncLastAt col ls).drop k := by
  induction ls generalizing k with
  | nil => simp at h
  | cons a t ih =>
    cases k with
    | zero => rfl
    | succ k =>
      cases t with
      | nil => simp at h
      | cons b t' =>
        have hk : k < (b :: t').length := by
          simpa using Nat.lt_of_succ_lt_succ h
        simpa [truncLastAt] using ih k hk

theorem truncLastAt_take (lines : List (List Char)) (row col : Nat)
    (h : row < lines.length) :
    truncLastAt col (lines.take (row + 1)) =
      lines.take row ++ [(lines.getD row []).take col] := by
  induction lines generalizing row with
  | nil => simp at h
  | cons a t ih =>
    cases row with
    | zero => simp [truncLastAt]
    | succ row =>
      have h' : row < t.length := Nat.lt_of_succ_lt_succ h
      have hne : t.take (row + 1) ≠ [] := by
        cases t with
        | nil => simp at h'
        | cons b t' => simp
      cases ht : t.take (row + 1) with
      | nil => exact absurd ht hne
      | cons b rest =>
        have := ih row h'
        simp only [List.take_succ_cons, truncLastAt, ht] at this ⊢
        simpa [ht] using this

/-- Clipping only drops characters from the front. -/
theorem clipCore_suffix (cut : List Char → Nat) (ctx : List Char) :
    clipCore cut ctx <:+ ctx := by
  unfold clipCore
  split
  · exact List.drop_suffix _ _
  · exact List.suffix_refl _

theorem clipTail_suffix (m : Nat) (cut : List Char → Nat) (ctx : List Char) :
    clipTail m cut ctx <:+ ctx := by
  unfold clipTail
  split
  · exact (clipCore_suffix _ _).trans (List.drop_suffix _ _)
  · exact List.suffix_refl _

/-- Clipping bounds the length by the character budget. -/
theorem clipCore_length_le (cut : List Char → Nat) (ctx : List Char) :
    (clipCore cut ctx).length ≤ ctx.length :=
  (clipCore_suffix cut ctx).length_le

theorem clipTail_length (m : Nat) (cut : List Char → Nat) (ctx : List Char) :
    (clipTail m cut ctx).length ≤ m := by
  unfold clipTail
  split
  · rename_i hlong
    have hbase : (ctx.drop (ctx.length - m)).length = m := by
      simp [Nat.sub_sub_self (Nat.le_of_lt hlong)]
    exact le_of_le_of_eq (clipCore_length_le _ _) hbase
  · rename_i hlong
    exact Nat.le_of_not_lt hlong

/-- The common core of both context extractors: the windowed, cursor-cut,
joined text is a suffix of the full pre-cursor text. -/
theorem context_core_suffix (lines : List (List Char)) (row col maxL : Nat)
    (h : row < lines.length) (hL : 0 < maxL) :
    joinNl (truncLastAt col ((lines.take (row + 1)).drop (row + 1 - maxL))) <:+
      preCursorText lines row col := by
  have hlen : (lines.take (row + 1)).length = row + 1 := by
    rw [List.length_take]; omega
  have hk : row + 1 - maxL < (lines.take (row + 1)).length := by
    rw [hlen]; omega
  rw [truncLastAt_drop col _ _ hk, truncLastAt_take lines row col h]
  exact joinNl_drop_suffix _ _

/-- C4: the extracted context never exceeds the configured character
budget (800 for the command-parser extractor, 1000 for the ai-service
extractor) and is always a suffix of the document text before the cursor —
so it ends exactly at the cursor column and contains no later character of
the document. -/
theorem C4_context_boundary (lines : List (List Char)) (row col : Nat)
    (h : row < lines.length) :
    (getCodeContextCP lines row col).length ≤ 800 ∧
    getCodeContextCP lines row col <:+ preCursorText lines row col ∧
    (getCodeContextAS lines row col).length ≤ 1000 ∧
    getCodeContextAS lines row col <:+ preCursorText lines row col :=
  ⟨clipTail_length _ _ _,
    (clipTail_suffix _ _ _).trans (context_core_suffix lines row col 50 h (by omega)),
    clipTail_length _ _ _,
    (clipTail_suffix _ _ _).trans (context_core_suffix lines row col 100 h (by omega))⟩

/-- C4 witness: the context boundary at a concrete two-line document with
the cursor at row 1, column 3. -/
theorem C4_context_boundary_witness :
    1 < (["abc".data, "defgh".data] : List (List Char)).length ∧
    ((getCodeContextCP ["abc".data, "defgh".data] 1 3).length ≤ 800 ∧
      getCodeContextCP ["abc".data, "defgh".data] 1 3 <:+
        preCursorText ["abc".data, "defgh".data] 1 3 ∧
      (getCodeContextAS ["abc".data, "defgh".data] 1 3).length ≤ 1000 ∧
      getCodeContextAS ["abc".data, "defgh".data] 1 3 <:+
        preCursorText ["abc".data, "defgh".data] 1 3) :=
  ⟨by decide, C4_context_boundary ["abc".data, "defgh".data] 1 3 (by decide)⟩

/-! Lemmas for the FIFO-eviction claim. -/

/-- Inserting a sequence of contexts in order (the harness for the
`capacity + 1` insertion experiment). -/
def insertAll (ps : List (String × String)) : Cache :=
  ps.foldl (fun acc p => cacheResult p.1 p.2 acc) []

theorem mapSet_append (c : Cache) (k v : String) (h : ∀ e ∈ c, e.1 ≠ k) :
    mapSet c k v = c ++ [(k, v)] := by
  induction c with
  | nil => rfl
  | cons e t ih =>
    have he : e.1 ≠ k := h e (List.mem_cons_self e t)
    simp only [mapSet, if_neg he, List.cons_append, List.cons.injEq, true_and]
    exact ih fun x hx => h x (List.mem_cons_of_mem e hx)

theorem mapSet_length_le (c : Cache) (k v : String) :
    (mapSet c k v).length ≤ c.length + 1 := by
  induction c with
  | nil => simp [mapSet]
  | cons e t ih =>
    by_cases he : e.1 = k
    · simp [mapSet, he]
    · simpa [mapSet, he] using Nat.succ_le_succ ih

theorem mapGet_cons_ne (e : String × String) (t : List (String × String))
    (k : String) (he : e.1 ≠ k) : mapGet (e :: t) k = mapGet t k := by
  simp [mapGet, List.find?_cons, decide_eq_false he]

theorem mapGet_eq_none (c : Cache) (k : String) (h : ∀ e ∈ c, e.1 ≠ k) :
    mapGet c k = none := by
  induction c with
  | nil => rfl
  | cons e t ih =>
    rw [mapGet_cons_ne e t k (h e (List.mem_cons_self e t))]
    exact ih fun x hx => h x (List.mem_cons_of_mem e hx)

theorem mapGet_mem (c : Cache) (k v : String)
    (hpw : c.Pairwise fun a b => a.1 ≠ b.1) (hm : (k, v) ∈ c) :
    mapGet c k = some v := by
  induction c with
  | nil => simp at hm
  | cons e t ih =>
    rcases List.mem_cons.mp hm with he | ht
    · subst he
      simp [mapGet, List.find?_cons]
    · have hek : e.1 ≠ k := by
        have := (List.pairwise_cons.mp hpw).1 (k, v) ht
        simpa using this
      rw [mapGet_cons_ne e t k hek]
      exact ih (List.pairwise_cons.mp hpw).2 ht

/-- While the cache stays under capacity and all inserted keys are fresh
and pairwise distinct, insertion is pure appending. -/
theorem foldl_cacheResult_append (ps : List (String × String)) :
    ∀ c : Cache, c.length + ps.length ≤ 50 →
      (∀ p ∈ ps, ∀ e ∈ c, e.1 ≠ p.1) →
      ps.Pairwise (fun a b => a.1 ≠ b.1) →
      ps.foldl (fun acc p => cacheResult p.1 p.2 acc) c = c ++ ps := by
  induction ps with
  | nil => intro c _ _ _; simp
  | cons p t ih =>
    intro c hlen hfresh hpw
    have hc50 : ¬ 50 ≤ c.length := by
      simp only [List.length_cons] at hlen; omega
    have hstep : cacheResult p.1 p.2 c = c ++ [p] := by
      unfold cacheResult
      rw [if_neg hc50]
      exact mapSet_append c p.1 p.2 fun e he =>
        hfresh p (List.mem_cons_self p t) e he
    rw [List.foldl_cons, hstep,
      ih (c ++ [p])
        (by
          simp only [List.length_append, List.length_singleton,
            List.length_cons, List.length_nil] at hlen ⊢
          omega)
        ?_ (List.pairwise_cons.mp hpw).2]
    · simp
    · intro q hq e he
      rcases List.mem_append.mp he with hec | hep
      · exact hfresh q (List.mem_cons_of_mem p hq) e hec
      · have : e = p := by simpa using hep
        subst this
        exact (List.pairwise_cons.mp hpw).1 q hq

/-- C5: inserting `capacity + 1 = 51` pairwise-distinct keys into the
empty cache evicts exactly the first-inserted entry: the final cache has
50 entries, the first key is gone, every other key still maps to its
value; lookups never mutate the cache; and an insert never grows the
cache beyond capacity. -/
theorem C5_fifo_eviction (ks vs : List String) (hk : ks.length = 51)
    (hv : vs.length = 51) (hd : ks.Pairwise (· ≠ ·)) :
    (insertAll (ks.zip vs)).length = 50 ∧
    mapGet (insertAll (ks.zip vs)) (ks.getD 0 "") = none ∧
    (∀ i, 1 ≤ i → i < 51 →
      mapGet (insertAll (ks.zip vs)) (ks.getD i "") = some (vs.getD i "")) ∧
    (∀ (c : Cache) (k v : String), c.length ≤ 50 → (cacheResult k v c).length ≤ 50) ∧
    (∀ (c : Cache) (k : String), (lookupOp c k).1 = c) := by
  have hps : (ks.zip vs).length = 51 := by simp [hk, hv]
  have hpw : (ks.zip vs).Pairwise fun a b => a.1 ≠ b.1 := by
    have hmap : ((ks.zip vs).map Prod.fst).Pairwise (· ≠ ·) := by
      rw [List.map_fst_zip ks vs (by omega)]; exact hd
    exact List.pairwise_map.mp hmap
  obtain ⟨p50, hp50⟩ := List.length_eq_one.mp
    (show ((ks.zip vs).drop 50).length = 1 by simp [hps])
  have htlen : ((ks.zip vs).take 50).length = 50 := by simp [hps]
  obtain ⟨p0, t0, hcons⟩ : ∃ p0 t0, (ks.zip vs).take 50 = p0 :: t0 := by
    cases h : (ks.zip vs).take 50 with
    | nil => rw [h] at htlen; simp at htlen
    | cons a b => exact ⟨a, b, rfl⟩
  have hsplit : ks.zip vs = p0 :: (t0 ++ [p50]) := by
    rw [← List.take_append_drop 50 (ks.zip vs), hcons, hp50]; rfl
  have htpw : (t0 ++ [p50]).Pairwise fun a b => a.1 ≠ b.1 :=
    (List.pairwise_cons.mp (hsplit ▸ hpw)).2
  have hhead : ∀ e ∈ t0 ++ [p50], p0.1 ≠ e.1 :=
    (List.pairwise_cons.mp (hsplit ▸ hpw)).1
  have hbuild : ((ks.zip vs).take 50).foldl (fun acc p => cacheResult p.1 p.2 acc) [] =
      (ks.zip vs).take 50 := by
    have := foldl_cacheResult_append ((ks.zip vs).take 50) []
      (by rw [htlen]; simp) (by intro p _ e he; simp at he)
      (hpw.sublist (List.take_sublist 50 (ks.zip vs)))
    simpa using this
  have hfreshLast : ∀ e ∈ t0, e.1 ≠ p50.1 := by
    intro e he
    have h1 : (t0 ++ [p50]).Pairwise fun a b => a.1 ≠ b.1 := htpw
    have := List.pairwise_append.mp h1
    exact this.2.2 e he p50 (List.mem_singleton.mpr rfl)
  have hstep : cacheResult p50.1 p50.2 (p0 :: t0) = t0 ++ [p50] := by
    unfold cacheResult
    have hfull : 50 ≤ (p0 :: t0).length := by
      rw [← hcons, htlen]
    rw [if_pos hfull]
    have hdel : mapDelete (p0 :: t0) (firstCacheKey (p0 :: t0)) = t0 := by
      simp [mapDelete, firstCacheKey]
    rw [hdel, mapSet_append t0 p50.1 p50.2 hfreshLast]
  have hfinal : insertAll (ks.zip vs) = t0 ++ [p50] := by
    unfold insertAll
    rw [← List.take_append_drop 50 (ks.zip vs), List.foldl_append, hbuild, hp50, hcons]
    simpa using hstep
  have hlen0 : t0.length = 49 := by
    have := htlen
    rw [hcons] at this
    simpa using this
  refine ⟨?_, ?_, ?_, ?_, ?_⟩
  · rw [hfinal]; simp [hlen0]
  · rw [hfinal]
    have hk0 : ks.getD 0 "" = p0.1 := by
      have h0 : (ks.zip vs).getD 0 ("", "") = p0 := by rw [hsplit]; rfl
      have hz : (ks.zip vs).getD 0 ("", "") = (ks.getD 0 "", vs.getD 0 "") := by
        have h51 : 0 < (ks.zip vs).length := by omega
        rw [List.getD_eq_getElem _ _ h51, List.getElem_zip,
          List.getD_eq_getElem _ _ (by omega), List.getD_eq_getElem _ _ (by omega)]
      rw [hz] at h0
      exact congrArg Prod.fst h0
    rw [hk0]
    exact mapGet_eq_none _ _ fun e he => (hhead e he).symm
  · intro i h1 h51
    have hi : i < (ks.zip vs).length := by omega
    have h0lt : 0 < (ks.zip vs).length := by omega
    have hzi : (ks.zip vs)[i] = (ks.getD i "", vs.getD i "") := by
      rw [List.getElem_zip, List.getD_eq_getElem _ _ (by omega),
        List.getD_eq_getElem _ _ (by omega)]
    have hp0get : (ks.zip vs)[0] = p0 := by
      simp [hsplit]
    have hkey : p0.1 ≠ ks.getD i "" := by
      have hne := List.pairwise_iff_getElem.mp hpw 0 i h0lt hi (by omega)
      rw [hp0get, hzi] at hne
      exact hne
    have hmem0 : (ks.getD i "", vs.getD i "") ∈ ks.zip vs := by
      rw [← hzi]
      exact List.getElem_mem hi
    have hmem : (ks.getD i "", vs.getD i "") ∈ t0 ++ [p50] := by
      rw [hsplit] at hmem0
      rcases List.mem_cons.mp hmem0 with heq | hin
      · exact absurd (congrArg Prod.fst heq).symm hkey
      · exact hin
    rw [hfinal]
    exact mapGet_mem _ _ _ htpw hmem
  · intro c k v hc
    unfold cacheResult
    by_cases hfull : 50 ≤ c.length
    · rw [if_pos hfull]
      have hceq : c.length = 50 := Nat.le_antisymm hc hfull
      cases c with
      | nil => simp at hceq
      | cons e t =>
        have hdel : mapDelete (e :: t) (firstCacheKey (e :: t)) = t := by
          simp [mapDelete, firstCacheKey]
        rw [hdel]
        have := mapSet_length_le t k v
        simp only [List.length_cons] at hceq
        omega
    · rw [if_neg hfull]
      have := mapSet_length_le c k v
      omega
  · intro c k
    rfl

def c5Keys : List String := (List.range 51).map fun n => "k" ++ Nat.repr n

def c5Vals : List String := (List.range 51).map fun n => "v" ++ Nat.repr n

/-- C5 witness: 51 concrete distinct keys. -/
theorem C5_fifo_eviction_witness :
    (c5Keys.length = 51 ∧ c5Vals.length = 51 ∧ c5Keys.Pairwise (· ≠ ·)) ∧
    (insertAll (c5Keys.zip c5Vals)).length = 50 ∧
    mapGet (insertAll (c5Keys.zip c5Vals)) (c5Keys.getD 0 "") = none ∧
    mapGet (insertAll (c5Keys.zip c5Vals)) (c5Keys.getD 1 "") =
      some (c5Vals.getD 1 "") :=
  ⟨⟨by decide, by decide, by decide⟩,
    (C5_fifo_eviction c5Keys c5Vals (by decide) (by decide) (by decide)).1,
    (C5_fifo_eviction c5Keys c5Vals (by decide) (by decide) (by decide)).2.1,
    (C5_fifo_eviction c5Keys c5Vals (by decide) (by decide) (by decide)).2.2.1 1
      (by decide) (by decide)⟩

/-- C6: failure classification at the preview boundary.  Exactly the
authentication and rate-limit messages produce a user-visible
notification; the timeout and network messages are absorbed; and every
failure leaves the preview and the document untouched and resets the
in-progress flag so the editor keeps running. -/
theorem C6_failure_classification :
    classifyError authErrorMsg = some ("[AI] Check API key configuration", "error") ∧
    classifyError rateErrorMsg = some ("[AI] Rate limit reached", "warning") ∧
    classifyError timeoutErrorMsg = none ∧
    classifyError networkErrorMsg = none ∧
    (∀ (st : EditorSt) (msg : String),
      (handleAIFailure st msg).1.aiPreviewSuggestion = st.aiPreviewSuggestion ∧
      (handleAIFailure st msg).1.lines = st.lines ∧
      (handleAIFailure st msg).1.aiCompletionInProgress = false ∧
      (handleAIFailure st msg).2 = classifyError msg) := by
  refine ⟨by decide, by decide, by decide, by decide, ?_⟩
  intro st msg
  exact ⟨rfl, rfl, rfl, rfl⟩

/-! Lemmas for the preview-overlay claim. -/

theorem mapWithIdx_getElem? (f : Nat → List Char → List Char) :
    ∀ (l : List (List Char)) (i j : Nat),
      (mapWithIdx f i l)[j]? = (l[j]?).map (f (i + j)) := by
  intro l
  induction l with
  | nil => intro i j; simp [mapWithIdx]
  | cons a t ih =>
    intro i j
    cases j with
    | zero => simp [mapWithIdx]
    | succ j =>
      have harith : i + 1 + j = i + (j + 1) := by omega
      simp only [mapWithIdx, List.getElem?_cons_succ]
      rw [ih (i + 1) j, harith]

theorem ensureCursorSync_id (st : EditorSt) (hrow : st.row < st.lines.length)
    (hcol : st.col ≤ (st.lines.getD st.row []).length) :
    ensureCursorSync st = st := by
  have h1 : syncRow st = st.row := by
    unfold syncRow
    rw [if_neg (Nat.not_le.mpr hrow)]
  unfold ensureCursorSync
  rw [h1, if_neg (Nat.not_lt.mpr hcol)]

/-- C7: with a preview active in insert mode, rendering hands the
highlighter the composed lines, the composed cursor line is exactly
prefix-before-cursor, then the visually distinct ghost text, then the
suffix after the cursor, every other line is passed through unchanged,
and neither rendering nor clearing the preview touches any stored
document line. -/
theorem C7_overlay_before_highlight (h : List (List Char) → List (List Char))
    (st : EditorSt) (s : List Char)
    (hmode : st.mode = Mode.insert)
    (hprev : st.aiPreviewSuggestion = some s)
    (hclean : sanitizeForDisplayL s ≠ [])
    (hrow : st.row < st.lines.length)
    (hcol : st.col ≤ (st.lines.getD st.row []).length) :
    (render h st).2 = h (processedContent st) ∧
    (processedContent st)[st.row]? =
      some ((stripAnsiL (st.lines.getD st.row [])).take st.col ++
        ghostWrap (sanitizeForDisplayL s) ++
        (stripAnsiL (st.lines.getD st.row [])).drop st.col) ∧
    (∀ i, i ≠ st.row → (processedContent st)[i]? = st.lines[i]?) ∧
    (render h st).1.lines = st.lines ∧
    (clearAIPreviewE st).lines = st.lines ∧
    (clearAIPreviewE st).aiPreviewSuggestion = none := by
  have hs : s ≠ [] := by
    intro hnil
    exact hclean (by rw [hnil]; rfl)
  refine ⟨?_, ?_, ?_, ?_, rfl, rfl⟩
  · rw [render, ensureCursorSync_id st hrow hcol]
  · rw [processedContent, mapWithIdx_getElem? (composeAt st) st.lines 0 st.row]
    rw [List.getElem?_eq_getElem hrow]
    have hgetD : st.lines[st.row] = st.lines.getD st.row [] :=
      (List.getD_eq_getElem st.lines [] hrow).symm
    simp only [Option.map_some', hgetD, composeAt, hprev]
    rw [if_pos (show 0 + st.row = st.row ∧ st.mode = Mode.insert from
      ⟨Nat.zero_add _, hmode⟩)]
    simp only [insertAIPreviewInLine]
    rw [if_neg hs, if_neg hclean]
  · intro i hne
    rw [processedContent, mapWithIdx_getElem? (composeAt st) st.lines 0 i]
    have hcond : ¬(0 + i = st.row ∧ st.mode = Mode.insert) := by
      rw [Nat.zero_add]
      exact fun hc => hne hc.1
    cases st.lines[i]? with
    | none => rfl
    | some l =>
      simp only [Option.map_some', composeAt, hprev]
      rw [if_neg hcond]
  · rw [render, ensureCursorSync_id st hrow hcol]

def c7St : EditorSt :=
  { lines := ["const x = ".data], row := 0, col := 10, mode := Mode.insert,
    aiPreviewSuggestion := some "foo;".data, aiCompletionInProgress := false,
    aiPreviewTimeout := false, inflight := none, aiAvailable := true }

/-- C7 witness: the overlay composition at a concrete state. -/
theorem C7_overlay_before_highlight_witness :
    (c7St.mode = Mode.insert ∧ c7St.aiPreviewSuggestion = some "foo;".data ∧
      sanitizeForDisplayL "foo;".data ≠ [] ∧ c7St.row < c7St.lines.length ∧
      c7St.col ≤ (c7St.lines.getD c7St.row []).length) ∧
    (processedContent c7St)[c7St.row]? =
      some ((stripAnsiL (c7St.lines.getD c7St.row [])).take c7St.col ++
        ghostWrap (sanitizeForDisplayL "foo;".data) ++
        (stripAnsiL (c7St.lines.getD c7St.row [])).drop c7St.col) :=
  ⟨⟨rfl, rfl, by decide, by decide, by decide⟩,
    (C7_overlay_before_highlight (fun l => l) c7St "foo;".data rfl rfl
      (by decide) (by decide) (by decide)).2.1⟩

/-! Lemmas for the suggestion-cleanup claim. -/

theorem findSubIdx_single_none_mem (a : Char) :
    ∀ s : List Char, findSubIdx [a] s = none → a ∉ s := by
  intro s
  induction s with
  | nil => intro _ h; simp at h
  | cons c rest ih =>
    intro h
    by_cases hp : [a].isPrefixOf (c :: rest)
    · rw [findSubIdx, if_pos hp] at h
      simp at h
    · rw [findSubIdx, if_neg hp] at h
      have hac : a ≠ c := by
        intro he
        exact hp (by simp [List.isPrefixOf, he])
      intro hmem
      rcases List.mem_cons.mp hmem with he | ht
      · exact hac he
      · cases hrest : findSubIdx [a] rest with
        | none => exact ih hrest ht
        | some j => rw [hrest] at h; simp at h

theorem findSubIdx_single_split (a : Char) :
    ∀ (s : List Char) (i : Nat), findSubIdx [a] s = some i →
      s = s.take i ++ a :: s.drop (i + 1) ∧ a ∉ s.take i := by
  intro s
  induction s with
  | nil => intro i h; simp [findSubIdx] at h
  | cons c rest ih =>
    intro i h
    by_cases hp : [a].isPrefixOf (c :: rest)
    · have hac : a = c := by simpa [List.isPrefixOf] using hp
      rw [findSubIdx, if_pos hp] at h
      have h0 : i = 0 := by
        cases h; rfl
      subst h0
      exact ⟨by simp [hac], by simp⟩
    · rw [findSubIdx, if_neg hp] at h
      have hac : a ≠ c := by
        intro he
        exact hp (by simp [List.isPrefixOf, he])
      cases hrest : findSubIdx [a] rest with
      | none => rw [hrest] at h; simp at h
      | some j =>
        rw [hrest] at h
        simp only [Option.map_some', Option.some.injEq] at h
        subst h
        obtain ⟨h1, h2⟩ := ih j hrest
        refine ⟨?_, ?_⟩
        · simp only [List.take_succ_cons, List.drop_succ_cons, List.cons_append,
            List.cons.injEq, true_and]
          exact h1
        · intro hmem
          simp only [List.take_succ_cons] at hmem
          rcases List.mem_cons.mp hmem with he | ht
          · exact hac he
          · exact h2 ht

theorem splitNl_go_spec :
    ∀ (fuel : Nat) (s : List Char), s.length < fuel →
      (∀ p ∈ splitNl.go s fuel, '\n' ∉ p) ∧
        (splitNl.go s fuel).length = s.count '\n' + 1 := by
  intro fuel
  induction fuel with
  | zero => intro s h; exact absurd h (Nat.not_lt_zero _)
  | succ fuel ih =>
    intro s h
    cases hfind : findSubIdx ['\n'] s with
    | none =>
      have hnot : '\n' ∉ s := findSubIdx_single_none_mem '\n' s hfind
      constructor
      · intro p hp
        simp only [splitNl.go, hfind, List.mem_singleton] at hp
        subst hp
        exact hnot
      · simp [splitNl.go, hfind, List.count_eq_zero.mpr hnot]
    | some i =>
      obtain ⟨hsplit, hnotin⟩ := findSubIdx_single_split '\n' s i hfind
      have hlenEq := congrArg List.length hsplit
      simp only [List.length_append, List.length_cons, List.length_take,
        List.length_drop] at hlenEq
      have hcount : s.count '\n' = (s.drop (i + 1)).count '\n' + 1 := by
        conv_lhs => rw [hsplit]
        rw [List.count_append, List.count_cons_self,
          List.count_eq_zero.mpr hnotin]
        omega
      have hlen : (s.drop (i + 1)).length < fuel := by
        rw [List.length_drop]
        omega
      obtain ⟨ihp, ihl⟩ := ih (s.drop (i + 1)) hlen
      constructor
      · intro p hp
        simp only [splitNl.go, hfind, List.mem_cons] at hp
        rcases hp with he | ht
        · subst he; exact hnotin
        · exact ihp p ht
      · simp only [splitNl.go, hfind, List.length_cons, ihl, hcount]

theorem splitNl_spec (s : List Char) :
    (∀ p ∈ splitNl s, '\n' ∉ p) ∧ (splitNl s).length = s.count '\n' + 1 :=
  splitNl_go_spec (s.length + 1) s (Nat.lt_succ_self _)

theorem jsTrimL_sublist (s : List Char) : List.Sublist (jsTrimL s) s := by
  unfold jsTrimL
  have h2 : List.Sublist ((s.dropWhile isJsWs).reverse.dropWhile isJsWs).reverse
      (s.dropWhile isJsWs) := by
    have hrev : List.Sublist ((s.dropWhile isJsWs).reverse.dropWhile isJsWs).reverse
        (s.dropWhile isJsWs).reverse.reverse :=
      List.Sublist.reverse (List.dropWhile_sublist _)
    rwa [List.reverse_reverse] at hrev
  exact h2.trans (List.dropWhile_sublist _)

theorem cleanResult_sublist (c : List Char) :
    List.Sublist (jsTrimL ((truncStage c).filter isKeptPrintable)) (truncStage c) :=
  (jsTrimL_sublist _).trans (List.filter_sublist _)

/-- C10: the cleanup step bounds every stored preview suggestion.  When
the deduplicated suggestion has no newline the result is at most 60
characters and newline-free; when it has newlines the result keeps at
most its first 2 lines (at most one newline); and when the suggestion
starts, case-insensitively, with the last whitespace-delimited word
before the cursor, that word is removed from the front before the rest of
the cleanup runs. -/
theorem C10_clean_suggestion_limits (sugg curLine : List Char) (col : Nat) :
    (hasSub ['\n'] (cleanStage1 sugg curLine col) = false →
      (cleanAISuggestionL sugg curLine col).length ≤ 60 ∧
      '\n' ∉ cleanAISuggestionL sugg curLine col) ∧
    (hasSub ['\n'] (cleanStage1 sugg curLine col) = true →
      (cleanAISuggestionL sugg curLine col).count '\n' ≤ 1) ∧
    (lastWordBefore curLine col ≠ [] →
      (lowerL (lastWordBefore curLine col)).isPrefixOf (lowerL (jsTrimL sugg)) = true →
      cleanAISuggestionL sugg curLine col =
        cleanTail ((jsTrimL sugg).drop (lastWordBefore curLine col).length)) := by
  refine ⟨?_, ?_, ?_⟩
  · intro hno
    by_cases hsug : sugg = []
    · subst hsug
      simp [cleanAISuggestionL]
    · have htr : truncStage (cleanStage1 sugg curLine col) =
          (cleanStage1 sugg curLine col).take 60 := by
        unfold truncStage
        rw [if_neg (by simp [hno])]
      have hres : cleanAISuggestionL sugg curLine col =
          jsTrimL ((((cleanStage1 sugg curLine col).take 60)).filter isKeptPrintable) := by
        simp only [cleanAISuggestionL, if_neg hsug, htr]
      rw [hres]
      have hsubl : List.Sublist
          (jsTrimL (((cleanStage1 sugg curLine col).take 60).filter isKeptPrintable))
          ((cleanStage1 sugg curLine col).take 60) :=
        (jsTrimL_sublist _).trans (List.filter_sublist _)
      constructor
      · exact le_trans hsubl.length_le (List.length_take_le _ _)
      · intro hmem
        have hmem2 : '\n' ∈ cleanStage1 sugg curLine col :=
          (List.take_sublist _ _).subset (hsubl.subset hmem)
        have hnone : findSubIdx ['\n'] (cleanStage1 sugg curLine col) = none := by
          have := hno
          unfold hasSub at this
          exact Option.not_isSome_iff_eq_none.mp (by simp [this])
        exact findSubIdx_single_none_mem _ _ hnone hmem2
  · intro hyes
    by_cases hsug : sugg = []
    · subst hsug
      simp [cleanAISuggestionL]
    · have hres : cleanAISuggestionL sugg curLine col =
          jsTrimL ((truncStage (cleanStage1 sugg curLine col)).filter isKeptPrintable) := by
        simp only [cleanAISuggestionL, if_neg hsug]
      rw [hres]
      have hchain := (cleanResult_sublist (cleanStage1 sugg curLine col)).count_le '\n'
      have htrunc : (truncStage (cleanStage1 sugg curLine col)).count '\n' ≤ 1 := by
        obtain ⟨hpieces, hlen⟩ := splitNl_spec (cleanStage1 sugg curLine col)
        unfold truncStage
        rw [if_pos (by simp [hyes])]
        by_cases h2 : 2 < (splitNl (cleanStage1 sugg curLine col)).length
        · rw [if_pos h2]
          cases hls : splitNl (cleanStage1 sugg curLine col) with
          | nil => rw [hls] at h2; simp at h2
          | cons l1 ls1 =>
            cases ls1 with
            | nil => rw [hls] at h2; simp at h2
            | cons l2 rest =>
              have hl1 : '\n' ∉ l1 := hpieces l1 (by rw [hls]; exact List.mem_cons_self _ _)
              have hl2 : '\n' ∉ l2 := hpieces l2 (by
                rw [hls]
                exact List.mem_cons_of_mem _ (List.mem_cons_self _ _))
              show List.count '\n' (joinNl [l1, l2]) ≤ 1
              have hjoin : joinNl [l1, l2] = l1 ++ '\n' :: l2 := rfl
              rw [hjoin, List.count_append, List.count_cons_self,
                List.count_eq_zero.mpr hl1, List.count_eq_zero.mpr hl2]
        · rw [if_neg h2]
          have : (cleanStage1 sugg curLine col).count '\n' + 1 ≤ 2 := by omega
          omega
      exact le_trans hchain htrunc
  · intro hlw hpre
    have hsne : sugg ≠ [] := by
      intro hnil
      subst hnil
      cases hlw2 : lastWordBefore curLine col with
      | nil => exact hlw hlw2
      | cons a t =>
        rw [hlw2] at hpre
        simp [jsTrimL, lowerL, List.isPrefixOf] at hpre
    simp only [cleanAISuggestionL, cleanStage1, cleanTail, if_neg hsne]
    rw [if_pos ⟨hlw, hpre⟩]

def c10Long : List Char := List.replicate 70 'a'

/-- C10 witness: the 60-character bound at a 70-character suggestion and
the duplicate-word removal at a concrete cursor line. -/
theorem C10_clean_suggestion_limits_witness :
    (hasSub ['\n'] (cleanStage1 c10Long "x".data 0) = false ∧
      (cleanAISuggestionL c10Long "x".data 0).length ≤ 60) ∧
    (lastWordBefore "const x = foo".data 13 ≠ [] ∧
      (lowerL (lastWordBefore "const x = foo".data 13)).isPrefixOf
        (lowerL (jsTrimL "foo.bar()".data)) = true ∧
      cleanAISuggestionL "foo.bar()".data "const x = foo".data 13 =
        cleanTail ((jsTrimL "foo.bar()".data).drop
          (lastWordBefore "const x = foo".data 13).length)) :=
  ⟨⟨by decide, ((C10_clean_suggestion_limits c10Long "x".data 0).1 (by decide)).1⟩,
    ⟨by decide, by decide,
      (C10_clean_suggestion_limits "foo.bar()".data "const x = foo".data 13).2.2
        (by decide) (by decide)⟩⟩

/-- C8: the cache-key digest is a 32-bit hash rendered in decimal and is
not injective: the distinct contexts `"Aa"` and `"BB"` share the key
`"2112"`, so a suggestion cached for the one is returned for the other. -/
theorem C8_cache_key_collision :
    getCacheKey "Aa" = getCacheKey "BB" ∧ "Aa" ≠ "BB" ∧
    cacheLookup (cacheResult (getCacheKey "Aa") "sugA" []) "BB" = some "sugA" := by
  exact ⟨by decide, by decide, by decide⟩

/-- C9: `setModel` accepts exactly its fixed four-name list (setting the
model, clearing the cache and returning `true`), rejects everything else
unchanged — including `"llama-3.1-8b-instant"`, which
`getSupportedModels` nevertheless advertises. -/
theorem C9_set_model :
    (∀ (st : AISvcSt) (name : String), name ∈ setModelAccepted →
      setModel st name = (true, { model := name, cache := [] })) ∧
    (∀ (st : AISvcSt) (name : String), name ∉ setModelAccepted →
      setModel st name = (false, st)) ∧
    setModelAccepted =
      ["mixtral-8x7b-32768", "llama3-8b-8192", "llama3-70b-8192", "gemma-7b-it"] ∧
    "llama-3.1-8b-instant" ∈ getSupportedModels ∧
    "llama-3.1-8b-instant" ∉ setModelAccepted := by
  refine ⟨?_, ?_, rfl, by decide, by decide⟩
  · intro st name h
    simp [setModel, h]
  · intro st name h
    simp [setModel, h]

/-- C9 witness: the accept and reject branches at concrete inputs. -/
theorem C9_set_model_witness :
    ("llama3-8b-8192" ∈ setModelAccepted ∧
      setModel { model := "mixtral-8x7b-32768", cache := [("k", "v")] } "llama3-8b-8192" =
        (true, { model := "llama3-8b-8192", cache := [] })) ∧
    ("llama-3.1-8b-instant" ∉ setModelAccepted ∧
      setModel { model := "mixtral-8x7b-32768", cache := [("k", "v")] } "llama-3.1-8b-instant" =
        (false, { model := "mixtral-8x7b-32768", cache := [("k", "v")] })) :=
  ⟨⟨by decide, C9_set_model.1 _ _ (by decide)⟩,
    ⟨by decide, C9_set_model.2.1 _ _ (by decide)⟩⟩

end JSVim
